import Mathlib

/-!
Shallow embedding of the stepper-motor driver in
`lumisync-embedded/motor/MotorControl.cpp` (class `MotorControl`).

Modelling choices:
* The driver state (the `m_*` member variables of the class) is the record
  `MotorControl.MC`.  `int` members are `Int`; `unsigned long` members are
  `Nat` (values produced by `millis()` are below `2 ^ 32` on the target, and
  the unsigned wrap-around subtraction of the source is modelled explicitly
  by `elapsedMs`).  The function pointer `m_stepCallback` is abstracted to
  the flag `hasCallback` (whether it is non-null); an invocation of the
  callback is recorded as an `Ev.observe` event.
* Side effects on the pins (`pinMode`, `digitalWrite`) and callback
  invocations are collected in a trace of `Ev` events; pins are identified
  by their index `0..3` into the `m_stepPins` array.
* Arithmetic follows C++ semantics: `%` on `int` truncates toward zero,
  which is `Int.tmod`.  A row index outside `0..3` makes the source read
  `fullSteps` out of bounds (undefined behaviour); the total function
  `fullStepsVal` is only meaningful for indices in range, which is exactly
  what the bounds claims are about.
* `millis()` is an injected clock capability: `update` takes the value the
  call to `millis()` returned as its `now` argument.
-/

namespace MotorControl

/-- `HIGH` of the Arduino core. -/
def HIGH : Int := 1

/-- `LOW` of the Arduino core. -/
def LOW : Int := 0

/-- `stepCount = 4`, the number of rows of the excitation table. -/
def stepCount : Int := 4

/-- `stepDelay = 2`, the minimum inter-step interval in milliseconds. -/
def stepDelay : Nat := 2

/-- `2 ^ 32`, the modulus of `unsigned long` arithmetic on the target. -/
def UINT32 : Nat := 4294967296

/-- The excitation table `MotorControl::fullSteps`. -/
def fullSteps : List (List Int) :=
  [[HIGH, HIGH, LOW, LOW],
   [LOW, HIGH, HIGH, LOW],
   [LOW, LOW, HIGH, HIGH],
   [HIGH, LOW, LOW, HIGH]]

/-- Entry `fullSteps[row][i]`.  In the source a `row` outside `0..3` is an
out-of-bounds array read (undefined behaviour); here the lookup is made
total with defaults, and the in-bounds question is settled separately. -/
def fullStepsVal (row : Int) (i : Nat) : Int :=
  (fullSteps.getD row.toNat []).getD i LOW

/-- One observable side effect of the driver: a `pinMode` call (with
`output = true` for `OUTPUT`), a `digitalWrite` call, or an invocation of
the step callback.  Pins are identified by index into `m_stepPins`. -/
inductive Ev where
  | pinMode (pin : Nat) (output : Bool)
  | digitalWrite (pin : Nat) (level : Int)
  | observe (pos : Int)
deriving Repr, DecidableEq

/-- The member variables of class `MotorControl`. -/
structure MC where
  minStep : Int
  maxStep : Int
  targetStep : Int
  currentStep : Int
  lastStepTime : Nat
  lastPosition : Int
  clockwise : Bool
  motorActive : Bool
  hasCallback : Bool
deriving Repr, DecidableEq

/-- The Arduino `constrain(amt, low, high)` macro:
`amt < low ? low : (amt > high ? high : amt)`. -/
def constrain (amt low high : Int) : Int :=
  if amt < low then low else if high < amt then high else amt

/-- The `unsigned long` difference `currentTime - m_lastStepTime` of the
source, i.e. subtraction modulo `2 ^ 32` (exact when `last ≤ now < 2 ^ 32`). -/
def elapsedMs (now last : Nat) : Nat :=
  (now + UINT32 - last) % UINT32

/-- The row index computed by `MotorControl::stepMotor`:
`m_clockwise ? m_currentStep % stepCount
             : (stepCount - 1) - (m_currentStep % stepCount)`,
with C++ truncated `%`. -/
def stepIndexOf (currentStep : Int) (clockwise : Bool) : Int :=
  if clockwise = true then currentStep.tmod stepCount
  else (stepCount - 1) - currentStep.tmod stepCount

/-- The four `digitalWrite(m_stepPins[i], fullSteps[stepIndex][i])` calls
of `MotorControl::stepMotor` for a given row index. -/
def writesOfRow (row : Int) : List Ev :=
  (List.range 4).map (fun i => Ev.digitalWrite i (fullStepsVal row i))

/-- `MotorControl::stepMotor`: write the excitation row selected by
`stepIndexOf`, then advance `m_currentStep` by `+1` (clockwise) or `-1`. -/
def stepMotor (s : MC) : MC × List Ev :=
  ({ s with currentStep := s.currentStep + (if s.clockwise = true then 1 else -1) },
   writesOfRow (stepIndexOf s.currentStep s.clockwise))

/-- The pin side effects of `MotorControl::activateMotor`: for each pin,
`pinMode(pin, OUTPUT); digitalWrite(pin, LOW)`. -/
def activateEvents : List Ev :=
  ((List.range 4).map (fun i => [Ev.pinMode i true, Ev.digitalWrite i LOW])).flatten

/-- The pin side effects of `MotorControl::deactivateMotor`: for each pin,
`pinMode(pin, INPUT)`. -/
def deactivateEvents : List Ev :=
  (List.range 4).map (fun i => Ev.pinMode i false)

/-- `MotorControl::activateMotor`. -/
def activateMotor (directionClockwise : Bool) (s : MC) : MC × List Ev :=
  ({ s with clockwise := directionClockwise,
            motorActive := true,
            lastPosition := s.currentStep },
   activateEvents)

/-- `MotorControl::deactivateMotor`. -/
def deactivateMotor (s : MC) : MC × List Ev :=
  ({ s with motorActive := false, lastPosition := s.currentStep },
   deactivateEvents)

/-- `MotorControl::update`, with `now` the value returned by `millis()`. -/
def update (now : Nat) (s : MC) : MC × List Ev :=
  if s.motorActive = true then
    if (s.clockwise = true ∧ s.targetStep ≤ s.currentStep) ∨
       (s.clockwise = false ∧ s.currentStep ≤ s.targetStep) then
      deactivateMotor s
    else if stepDelay ≤ elapsedMs now s.lastStepTime then
      ({ (stepMotor s).1 with lastStepTime := now }, (stepMotor s).2)
    else (s, [])
  else (s, [])

/-- `MotorControl::moveTo`. -/
def moveTo (t : Int) (s : MC) : MC × List Ev :=
  (fun s0 =>
    if s0.currentStep ≠ s0.targetStep then
      activateMotor (decide (s0.targetStep > s0.currentStep)) s0
    else (s0, []))
  { s with targetStep := constrain t s.minStep s.maxStep }

/-- The `while (m_motorActive && m_currentStep != m_targetStep)` loop of
`MotorControl::moveToSync`: one iteration calls `stepMotor`, waits
`stepDelay` milliseconds, and invokes the callback (if registered) with the
new `m_currentStep`.  In `moveToSync` the direction chosen by
`activateMotor` moves `m_currentStep` toward `m_targetStep` by exactly one
per iteration and nothing in the body changes `m_motorActive`, so the loop
runs exactly `|m_targetStep - m_currentStep|` iterations; that count is the
`fuel` argument making the recursion structural. -/
def syncLoop : Nat → MC → MC × List Ev
  | 0, s => (s, [])
  | fuel + 1, s =>
    if s.motorActive = true ∧ s.currentStep ≠ s.targetStep then
      ((syncLoop fuel (stepMotor s).1).1,
       (stepMotor s).2 ++
         (if (stepMotor s).1.hasCallback = true then
            [Ev.observe (stepMotor s).1.currentStep]
          else []) ++
         (syncLoop fuel (stepMotor s).1).2)
    else (s, [])

/-- `MotorControl::moveToSync`. -/
def moveToSync (t : Int) (s : MC) : MC × List Ev :=
  (fun s0 =>
    if s0.currentStep = s0.targetStep then (s0, [])
    else
      (fun s1 =>
        (fun r =>
          ((deactivateMotor r.1).1,
           activateEvents ++ r.2 ++ (deactivateMotor r.1).2))
        (syncLoop (s0.targetStep - s0.currentStep).natAbs s1))
      (activateMotor (decide (s0.targetStep > s0.currentStep)) s0).1)
  { s with targetStep := constrain t s.minStep s.maxStep }

/-- Run `update` once per entry of `times`, calling it with that clock
reading, collecting the event trace. -/
def runUpdates : MC → List Nat → MC × List Ev
  | s, [] => (s, [])
  | s, now :: rest =>
    ((runUpdates (update now s).1 rest).1,
     (update now s).2 ++ (runUpdates (update now s).1 rest).2)

/-- Clock readings that are in range for `millis()` and advance by at least
`stepDelay` from the given origin and between consecutive readings. -/
def pacedFrom (last : Nat) : List Nat → Prop
  | [] => True
  | t :: ts => last + stepDelay ≤ t ∧ t < UINT32 ∧ pacedFrom t ts

instance pacedFromDecidable : (last : Nat) → (ts : List Nat) → Decidable (pacedFrom last ts)
  | _, [] => Decidable.isTrue trivial
  | last, t :: ts =>
    have : Decidable (pacedFrom t ts) := pacedFromDecidable t ts
    inferInstanceAs (Decidable (last + stepDelay ≤ t ∧ t < UINT32 ∧ pacedFrom t ts))

/-- The positions reported to the step callback, extracted from a trace. -/
def observedPositions (evs : List Ev) : List Int :=
  evs.filterMap (fun e => match e with
    | Ev.observe p => some p
    | _ => none)

/-- Positions visited after each of `n` steps upward from `c`:
`[c+1, c+2, ..., c+n]`. -/
def ascFrom (c : Int) : Nat → List Int
  | 0 => []
  | n + 1 => (c + 1) :: ascFrom (c + 1) n

/-- Positions visited after each of `n` steps downward from `c`:
`[c-1, c-2, ..., c-n]`. -/
def descFrom (c : Int) : Nat → List Int
  | 0 => []
  | n + 1 => (c - 1) :: descFrom (c - 1) n

/-- The positions after each physical step of a move from `c` to `t`. -/
def pathList (c t : Int) : List Int :=
  if c < t then ascFrom c (t - c).natAbs else descFrom c (c - t).natAbs

/-- A sample driver state used to instantiate hypotheses of proved claims. -/
def sample : MC :=
  { minStep := 0, maxStep := 200, targetStep := 0, currentStep := 0,
    lastStepTime := 0, lastPosition := 0, clockwise := true,
    motorActive := false, hasCallback := true }

lemma constrain_mem {lo hi : Int} (x : Int) (h : lo ≤ hi) :
    lo ≤ constrain x lo hi ∧ constrain x lo hi ≤ hi := by
  unfold constrain
  split <;> [omega; (split <;> omega)]

lemma elapsedMs_eq_sub {now last : Nat} (h1 : last ≤ now) (h2 : now < UINT32) :
    elapsedMs now last = now - last := by
  unfold elapsedMs
  have h3 : now + UINT32 - last = (now - last) + UINT32 := by omega
  rw [h3, Nat.add_mod_right]
  exact Nat.mod_eq_of_lt (by omega)

lemma update_inactive {s : MC} (h : s.motorActive = false) (now : Nat) :
    update now s = (s, []) := by
  simp [update, h]

lemma runUpdates_inactive {s : MC} (h : s.motorActive = false) (ts : List Nat) :
    runUpdates s ts = (s, []) := by
  induction ts with
  | nil => rfl
  | cons now rest ih => simp [runUpdates, update_inactive h, ih]

end MotorControl

namespace MotorControl

/-- Claim C1 counterexample: at `currentStep = -1` the clockwise row index
computed by `stepMotor` is `(-1) tmod 4 = -1`, which is not in `[0, 3]`
(C++ `%` truncates toward zero, so the table read is out of bounds). -/
theorem stepIndexOf_neg_out_of_bounds :
    ¬ (0 ≤ stepIndexOf (-1) true ∧ stepIndexOf (-1) true ≤ 3) := by
  decide

/-- Claim C1 (amended): for every non-negative `currentStep` and either
direction flag, the excitation-table row index computed by `stepMotor`
lies in `[0, 3]`, so the table read is in bounds. -/
theorem stepIndexOf_mem_bounds (currentStep : Int) (clockwise : Bool)
    (h : 0 ≤ currentStep) :
    0 ≤ stepIndexOf currentStep clockwise ∧ stepIndexOf currentStep clockwise ≤ 3 := by
  have h1 : 0 ≤ currentStep.tmod stepCount := Int.tmod_nonneg stepCount h
  have h2 : currentStep.tmod stepCount < stepCount :=
    Int.tmod_lt_of_pos currentStep (by decide)
  unfold stepIndexOf stepCount at *
  split <;> omega

/-- Witness for the amended claim C1 at `currentStep = 5`. -/
theorem stepIndexOf_mem_bounds_witness :
    (0 ≤ (5 : Int)) ∧
      (0 ≤ stepIndexOf 5 false ∧ stepIndexOf 5 false ≤ 3) :=
  ⟨by decide, stepIndexOf_mem_bounds 5 false (by decide)⟩

/-- Claim C4: every call to `stepMotor` changes `currentStep` by exactly
`+1` when the direction flag is clockwise and by exactly `-1` otherwise,
for every state; the result does not depend on `minStep`/`maxStep`, which
`stepMotor` never reads. -/
theorem stepMotor_changes_by_one :
    ∀ s : MC,
      ((stepMotor s).1.currentStep =
        if s.clockwise = true then s.currentStep + 1 else s.currentStep - 1) ∧
      ∀ lo hi : Int,
        (stepMotor { s with minStep := lo, maxStep := hi }).1.currentStep =
          if s.clockwise = true then s.currentStep + 1 else s.currentStep - 1 := by
  intro s
  cases hc : s.clockwise <;>
    refine ⟨?_, fun lo hi => ?_⟩ <;> simp [stepMotor, hc] <;> omega

/-- Claim C8: calling `deactivateMotor` on a driver whose `motorActive`
flag is already `false` changes neither `currentStep` nor the activation
state. -/
theorem deactivateMotor_idempotent (s : MC) (h : s.motorActive = false) :
    (deactivateMotor s).1.currentStep = s.currentStep ∧
      (deactivateMotor s).1.motorActive = s.motorActive := by
  simp [deactivateMotor, h]

/-- Witness for claim C8 at the sample idle state. -/
theorem deactivateMotor_idempotent_witness :
    sample.motorActive = false ∧
      ((deactivateMotor sample).1.currentStep = sample.currentStep ∧
        (deactivateMotor sample).1.motorActive = sample.motorActive) :=
  ⟨by decide, deactivateMotor_idempotent sample (by decide)⟩

/-- Claim C7: for every active driver state, if the clock has advanced
less than `stepDelay` milliseconds since `lastStepTime`, `update` leaves
`currentStep` unchanged and performs no `digitalWrite` (a physical step is
emitted only when at least `stepDelay` has elapsed). -/
theorem update_paced (s : MC) (now : Nat)
    (hA : s.motorActive = true)
    (h1 : s.lastStepTime ≤ now)
    (h2 : now - s.lastStepTime < stepDelay)
    (h3 : now < UINT32) :
    (update now s).1.currentStep = s.currentStep ∧
      ∀ pin level, Ev.digitalWrite pin level ∉ (update now s).2 := by
  have he : elapsedMs now s.lastStepTime = now - s.lastStepTime :=
    elapsedMs_eq_sub h1 h3
  simp only [update, hA, if_true, he]
  split
  · simp [deactivateMotor, deactivateEvents]
  · rw [if_neg (by omega)]
    simp

/-- Witness for claim C7: active sample state, clock at 1 ms. -/
theorem update_paced_witness :
    ({ sample with motorActive := true, targetStep := 5 } : MC).motorActive = true ∧
      ({ sample with motorActive := true, targetStep := 5 } : MC).lastStepTime ≤ 1 ∧
      1 - ({ sample with motorActive := true, targetStep := 5 } : MC).lastStepTime < stepDelay ∧
      1 < UINT32 ∧
      ((update 1 { sample with motorActive := true, targetStep := 5 }).1.currentStep =
          ({ sample with motorActive := true, targetStep := 5 } : MC).currentStep ∧
        ∀ pin level,
          Ev.digitalWrite pin level ∉ (update 1 { sample with motorActive := true, targetStep := 5 }).2) :=
  ⟨by decide, by decide, by decide, by decide,
    update_paced { sample with motorActive := true, targetStep := 5 } 1
      (by decide) (by decide) (by decide) (by decide)⟩

/-- A counter-clockwise driver state at `currentStep = 4`, used to
evaluate the excitation rows `stepMotor` emits when moving backwards. -/
def ccwDemo : MC :=
  { minStep := 0, maxStep := 200, targetStep := 0, currentStep := 4,
    lastStepTime := 0, lastPosition := 0, clockwise := false,
    motorActive := true, hasCallback := false }

/-- Claim C5, evaluated at the failing input: counter-clockwise from
`currentStep = 4`, the first `stepMotor` call writes excitation row `3`
and the second writes row `0` — the forward cyclic order, not the reverse
order `3, 2, 1, 0` the claim states (row `0` differs from the claimed
row `2`).  Reversing the row index while also decrementing `currentStep`
cancels out, so both direction flags traverse the table forward. -/
theorem stepMotor_ccw_forward_rows :
    (stepMotor ccwDemo).2 = writesOfRow 3 ∧
      (stepMotor ccwDemo).1.currentStep = 3 ∧
      (stepMotor (stepMotor ccwDemo).1).2 = writesOfRow 0 ∧
      writesOfRow 0 ≠ writesOfRow 2 := by
  decide

lemma moveTo_targetStep (s : MC) (t : Int) :
    (moveTo t s).1.targetStep = constrain t s.minStep s.maxStep := by
  simp only [moveTo]
  split <;> simp [activateMotor]

lemma syncLoop_frame : ∀ (fuel : Nat) (s : MC),
    (syncLoop fuel s).1.targetStep = s.targetStep ∧
      (syncLoop fuel s).1.minStep = s.minStep ∧
      (syncLoop fuel s).1.maxStep = s.maxStep ∧
      (syncLoop fuel s).1.clockwise = s.clockwise ∧
      (syncLoop fuel s).1.motorActive = s.motorActive ∧
      (syncLoop fuel s).1.lastPosition = s.lastPosition ∧
      (syncLoop fuel s).1.lastStepTime = s.lastStepTime ∧
      (syncLoop fuel s).1.hasCallback = s.hasCallback := by
  intro fuel
  induction fuel with
  | zero => intro s; simp [syncLoop]
  | succ n ih =>
    intro s
    by_cases h : s.motorActive = true ∧ s.currentStep ≠ s.targetStep
    · simp only [syncLoop, if_pos h]
      simpa [stepMotor] using ih (stepMotor s).1
    · simp [syncLoop, if_neg h]

lemma moveToSync_targetStep (s : MC) (t : Int) :
    (moveToSync t s).1.targetStep = constrain t s.minStep s.maxStep := by
  simp only [moveToSync]
  split
  · rfl
  · simp [deactivateMotor, (syncLoop_frame _ _).1, activateMotor]

/-- Claim C6: after `moveTo t` or `moveToSync t` (any integer `t`, bounds
in order), `targetStep` lies in `[minStep, maxStep]`; clamping sends
`minStep - 5` to `minStep` and `maxStep + 5` to `maxStep`; and every other
operation (`update`, `activateMotor`, `deactivateMotor`, `stepMotor`)
leaves `targetStep` unchanged, so the bound is preserved. -/
theorem targetStep_clamped (s : MC) (t : Int) (h : s.minStep ≤ s.maxStep) :
    (s.minStep ≤ (moveTo t s).1.targetStep ∧ (moveTo t s).1.targetStep ≤ s.maxStep) ∧
      (s.minStep ≤ (moveToSync t s).1.targetStep ∧
        (moveToSync t s).1.targetStep ≤ s.maxStep) ∧
      (moveTo (s.minStep - 5) s).1.targetStep = s.minStep ∧
      (moveTo (s.maxStep + 5) s).1.targetStep = s.maxStep ∧
      (∀ s2 : MC, ∀ now : Nat, (update now s2).1.targetStep = s2.targetStep) ∧
      (∀ s2 : MC, ∀ d : Bool, (activateMotor d s2).1.targetStep = s2.targetStep) ∧
      (∀ s2 : MC, (deactivateMotor s2).1.targetStep = s2.targetStep) ∧
      (∀ s2 : MC, (stepMotor s2).1.targetStep = s2.targetStep) := by
  refine ⟨?_, ?_, ?_, ?_, ?_, ?_, ?_, ?_⟩
  · rw [moveTo_targetStep]; exact constrain_mem t h
  · rw [moveToSync_targetStep]; exact constrain_mem t h
  · rw [moveTo_targetStep]; unfold constrain; rw [if_pos (by omega)]
  · rw [moveTo_targetStep]; unfold constrain
    rw [if_neg (by omega), if_pos (by omega)]
  · intro s2 now
    simp only [update]
    split
    · split
      · simp [deactivateMotor]
      · split <;> simp [stepMotor]
    · rfl
  · intro s2 d; rfl
  · intro s2; rfl
  · intro s2; rfl

/-- Witness for claim C6 at the sample state (bounds `0 ≤ 200`), `t = 42`. -/
theorem targetStep_clamped_witness :
    sample.minStep ≤ sample.maxStep ∧
      ((sample.minStep ≤ (moveTo 42 sample).1.targetStep ∧
          (moveTo 42 sample).1.targetStep ≤ sample.maxStep) ∧
        (sample.minStep ≤ (moveToSync 42 sample).1.targetStep ∧
          (moveToSync 42 sample).1.targetStep ≤ sample.maxStep) ∧
        (moveTo (sample.minStep - 5) sample).1.targetStep = sample.minStep ∧
        (moveTo (sample.maxStep + 5) sample).1.targetStep = sample.maxStep ∧
        (∀ s2 : MC, ∀ now : Nat, (update now s2).1.targetStep = s2.targetStep) ∧
        (∀ s2 : MC, ∀ d : Bool, (activateMotor d s2).1.targetStep = s2.targetStep) ∧
        (∀ s2 : MC, (deactivateMotor s2).1.targetStep = s2.targetStep) ∧
        (∀ s2 : MC, (stepMotor s2).1.targetStep = s2.targetStep)) :=
  ⟨by decide, targetStep_clamped sample 42 (by decide)⟩

/-- Claim C9: `stepMotor` changes neither `lastPosition`, `targetStep`,
the direction flag, the activation flag, nor the bounds; `activateMotor`
and `deactivateMotor` set `lastPosition` to the `currentStep` at that
transition; and the remaining operations (`update`, `moveTo`,
`moveToSync`) either leave `lastPosition` unchanged or set it to the
`currentStep` snapshot taken by the activation/deactivation they perform. -/
theorem lastPosition_frame :
    ∀ (s : MC) (d : Bool) (now : Nat) (t : Int),
      ((stepMotor s).1.lastPosition = s.lastPosition ∧
        (stepMotor s).1.targetStep = s.targetStep ∧
        (stepMotor s).1.clockwise = s.clockwise ∧
        (stepMotor s).1.motorActive = s.motorActive ∧
        (stepMotor s).1.minStep = s.minStep ∧
        (stepMotor s).1.maxStep = s.maxStep) ∧
      (activateMotor d s).1.lastPosition = s.currentStep ∧
      (deactivateMotor s).1.lastPosition = s.currentStep ∧
      ((update now s).1.lastPosition = s.lastPosition ∨
        (update now s).1.lastPosition = (update now s).1.currentStep) ∧
      ((moveTo t s).1.lastPosition = s.lastPosition ∨
        (moveTo t s).1.lastPosition = (moveTo t s).1.currentStep) ∧
      ((moveToSync t s).1.lastPosition = s.lastPosition ∨
        (moveToSync t s).1.lastPosition = (moveToSync t s).1.currentStep) := by
  intro s d now t
  refine ⟨by simp [stepMotor], rfl, rfl, ?_, ?_, ?_⟩
  · simp only [update]
    split
    · split
      · right; simp [deactivateMotor]
      · split
        · left; simp [stepMotor]
        · left; rfl
    · left; rfl
  · simp only [moveTo]
    split
    · right; simp [activateMotor]
    · left; rfl
  · simp only [moveToSync]
    split
    · left; rfl
    · right; simp [deactivateMotor]

/-- Claim C10: when the clamped target already equals `currentStep`,
`moveToSync` returns immediately having changed only `targetStep`:
`currentStep`, `lastPosition`, the direction flag and `motorActive` are
unchanged, and no pin operation or observer call occurs. -/
theorem moveToSync_noop (s : MC) (t : Int)
    (h : constrain t s.minStep s.maxStep = s.currentStep) :
    (moveToSync t s).1.currentStep = s.currentStep ∧
      (moveToSync t s).1.lastPosition = s.lastPosition ∧
      (moveToSync t s).1.clockwise = s.clockwise ∧
      (moveToSync t s).1.motorActive = s.motorActive ∧
      (moveToSync t s).1.targetStep = constrain t s.minStep s.maxStep ∧
      (moveToSync t s).2 = [] := by
  simp [moveToSync, h]

lemma observedPositions_append (l1 l2 : List Ev) :
    observedPositions (l1 ++ l2) = observedPositions l1 ++ observedPositions l2 := by
  simp [observedPositions]

lemma observedPositions_writesOfRow (row : Int) :
    observedPositions (writesOfRow row) = [] := by
  simp [observedPositions, writesOfRow, List.filterMap_eq_nil_iff]

lemma observedPositions_activateEvents : observedPositions activateEvents = [] := by
  decide

lemma observedPositions_deactivateEvents : observedPositions deactivateEvents = [] := by
  decide

lemma observedPositions_stepMotor (s : MC) :
    observedPositions (stepMotor s).2 = [] :=
  observedPositions_writesOfRow _

lemma syncLoop_cw : ∀ (n : Nat) (s : MC),
    s.motorActive = true → s.clockwise = true → s.hasCallback = true →
    s.currentStep + n = s.targetStep →
    (syncLoop n s).1.currentStep = s.targetStep ∧
      observedPositions (syncLoop n s).2 = ascFrom s.currentStep n := by
  intro n
  induction n with
  | zero =>
    intro s hA hC hB hEq
    exact ⟨by simp [syncLoop]; omega, by simp [syncLoop, ascFrom, observedPositions]⟩
  | succ n ih =>
    intro s hA hC hB hEq
    have hne : s.currentStep ≠ s.targetStep := by omega
    have hs1 : (stepMotor s).1 = { s with currentStep := s.currentStep + 1 } := by
      simp [stepMotor, hC]
    have hrec := ih { s with currentStep := s.currentStep + 1 }
      (show s.motorActive = true from hA)
      (show s.clockwise = true from hC)
      (show s.hasCallback = true from hB)
      (show s.currentStep + 1 + (n : Int) = s.targetStep by omega)
    simp only [syncLoop, if_pos (And.intro hA hne), hs1]
    rw [if_pos (show ({ s with currentStep := s.currentStep + 1 } : MC).hasCallback = true from hB)]
    refine ⟨hrec.1, ?_⟩
    rw [observedPositions_append, observedPositions_append,
      observedPositions_stepMotor, hrec.2]
    simp [observedPositions, ascFrom]

lemma syncLoop_ccw : ∀ (n : Nat) (s : MC),
    s.motorActive = true → s.clockwise = false → s.hasCallback = true →
    s.currentStep - n = s.targetStep →
    (syncLoop n s).1.currentStep = s.targetStep ∧
      observedPositions (syncLoop n s).2 = descFrom s.currentStep n := by
  intro n
  induction n with
  | zero =>
    intro s hA hC hB hEq
    exact ⟨by simp [syncLoop]; omega, by simp [syncLoop, descFrom, observedPositions]⟩
  | succ n ih =>
    intro s hA hC hB hEq
    have hne : s.currentStep ≠ s.targetStep := by omega
    have hs1 : (stepMotor s).1 = { s with currentStep := s.currentStep - 1 } := by
      simp [stepMotor, hC]
      omega
    have hrec := ih { s with currentStep := s.currentStep - 1 }
      (show s.motorActive = true from hA)
      (show s.clockwise = false from hC)
      (show s.hasCallback = true from hB)
      (show s.currentStep - 1 - (n : Int) = s.targetStep by omega)
    simp only [syncLoop, if_pos (And.intro hA hne), hs1]
    rw [if_pos (show ({ s with currentStep := s.currentStep - 1 } : MC).hasCallback = true from hB)]
    refine ⟨hrec.1, ?_⟩
    rw [observedPositions_append, observedPositions_append,
      observedPositions_stepMotor, hrec.2]
    simp [observedPositions, descFrom]

/-- `moveToSync` unfolded: early return when already at the clamped
target, otherwise activate toward it, run the loop, deactivate. -/
lemma moveToSync_eq (t : Int) (s : MC) :
    moveToSync t s =
      if s.currentStep = constrain t s.minStep s.maxStep then
        ({ s with targetStep := constrain t s.minStep s.maxStep }, [])
      else
        ((deactivateMotor (syncLoop (constrain t s.minStep s.maxStep - s.currentStep).natAbs
            { s with targetStep := constrain t s.minStep s.maxStep,
                     clockwise := decide (constrain t s.minStep s.maxStep > s.currentStep),
                     motorActive := true, lastPosition := s.currentStep }).1).1,
         activateEvents ++
           (syncLoop (constrain t s.minStep s.maxStep - s.currentStep).natAbs
             { s with targetStep := constrain t s.minStep s.maxStep,
                      clockwise := decide (constrain t s.minStep s.maxStep > s.currentStep),
                      motorActive := true, lastPosition := s.currentStep }).2 ++
           (deactivateMotor (syncLoop (constrain t s.minStep s.maxStep - s.currentStep).natAbs
             { s with targetStep := constrain t s.minStep s.maxStep,
                      clockwise := decide (constrain t s.minStep s.maxStep > s.currentStep),
                      motorActive := true, lastPosition := s.currentStep }).1).2) := by
  rfl

/-- Claim C2 counterexample: a driver that is already active and already at
the clamped target.  `moveToSync 0` from the sample state (position 0,
bounds `[0, 200]`) with `motorActive = true` returns through the early
`return`, skipping `deactivateMotor`, so `motorActive` is still `true` on
return — the claim says `activeFlag` is false on return for every initial
state. -/
theorem moveToSync_active_at_target_stays_active :
    (moveToSync 0 { sample with motorActive := true }).1.motorActive = true := by
  decide

/-- Claim C2 (amended): for every initial state and target such that the
driver is inactive or the clamped target differs from `currentStep` (the
already-active, already-at-target case returns early without
deactivating), `moveToSync` returns with `currentStep` equal to
`constrain target minStep maxStep` and `motorActive` false, and the
registered step observer has been invoked exactly once per physical step,
each time with the running position after that step. -/
theorem moveToSync_drives (s : MC) (t : Int)
    (hcb : s.hasCallback = true)
    (h : s.motorActive = false ∨ constrain t s.minStep s.maxStep ≠ s.currentStep) :
    (moveToSync t s).1.currentStep = constrain t s.minStep s.maxStep ∧
      (moveToSync t s).1.motorActive = false ∧
      observedPositions (moveToSync t s).2 =
        pathList s.currentStep (constrain t s.minStep s.maxStep) := by
  rw [moveToSync_eq]
  by_cases heq : s.currentStep = constrain t s.minStep s.maxStep
  · have hI : s.motorActive = false := by
      rcases h with h | h
      · exact h
      · exact absurd heq.symm h
    rw [if_pos heq]
    refine ⟨heq, hI, ?_⟩
    simp only [observedPositions, List.filterMap_nil, pathList]
    rw [if_neg (by omega), show (s.currentStep - constrain t s.minStep s.maxStep).natAbs = 0 by omega]
    rfl
  · rw [if_neg heq]
    by_cases hdir : constrain t s.minStep s.maxStep > s.currentStep
    · rw [decide_eq_true hdir]
      have hloop := syncLoop_cw
        (constrain t s.minStep s.maxStep - s.currentStep).natAbs
        { s with targetStep := constrain t s.minStep s.maxStep,
                 clockwise := true, motorActive := true,
                 lastPosition := s.currentStep }
        rfl rfl
        (show s.hasCallback = true from hcb)
        (show s.currentStep + ((constrain t s.minStep s.maxStep - s.currentStep).natAbs : Int) = constrain t s.minStep s.maxStep by omega)
      refine ⟨?_, by simp [deactivateMotor], ?_⟩
      · simpa [deactivateMotor] using hloop.1
      · rw [observedPositions_append, observedPositions_append,
          observedPositions_activateEvents, hloop.2]
        simp only [deactivateMotor, observedPositions_deactivateEvents,
          List.nil_append, List.append_nil, pathList, if_pos hdir]
    · have hlt : constrain t s.minStep s.maxStep < s.currentStep := by omega
      rw [decide_eq_false hdir]
      have hloop := syncLoop_ccw
        (constrain t s.minStep s.maxStep - s.currentStep).natAbs
        { s with targetStep := constrain t s.minStep s.maxStep,
                 clockwise := false, motorActive := true,
                 lastPosition := s.currentStep }
        rfl rfl
        (show s.hasCallback = true from hcb)
        (show s.currentStep - ((constrain t s.minStep s.maxStep - s.currentStep).natAbs : Int) = constrain t s.minStep s.maxStep by omega)
      refine ⟨?_, by simp [deactivateMotor], ?_⟩
      · simpa [deactivateMotor] using hloop.1
      · rw [observedPositions_append, observedPositions_append,
          observedPositions_activateEvents, hloop.2]
        simp only [deactivateMotor, observedPositions_deactivateEvents,
          List.nil_append, List.append_nil, pathList,
          if_neg (show ¬ s.currentStep < constrain t s.minStep s.maxStep by omega)]
        rw [show (constrain t s.minStep s.maxStep - s.currentStep).natAbs =
            (s.currentStep - constrain t s.minStep s.maxStep).natAbs by omega]

/-- Witness for the amended claim C2: sample state, target 3. -/
theorem moveToSync_drives_witness :
    sample.hasCallback = true ∧
      (sample.motorActive = false ∨ constrain 3 sample.minStep sample.maxStep ≠ sample.currentStep) ∧
      ((moveToSync 3 sample).1.currentStep = constrain 3 sample.minStep sample.maxStep ∧
        (moveToSync 3 sample).1.motorActive = false ∧
        observedPositions (moveToSync 3 sample).2 =
          pathList sample.currentStep (constrain 3 sample.minStep sample.maxStep)) :=
  ⟨by decide, Or.inl (by decide), moveToSync_drives sample 3 (by decide) (Or.inl (by decide))⟩

/-- Witness for claim C10: target 0 from the sample state at position 0. -/
theorem moveToSync_noop_witness :
    constrain 0 sample.minStep sample.maxStep = sample.currentStep ∧
      ((moveToSync 0 sample).1.currentStep = sample.currentStep ∧
        (moveToSync 0 sample).1.lastPosition = sample.lastPosition ∧
        (moveToSync 0 sample).1.clockwise = sample.clockwise ∧
        (moveToSync 0 sample).1.motorActive = sample.motorActive ∧
        (moveToSync 0 sample).1.targetStep = constrain 0 sample.minStep sample.maxStep ∧
        (moveToSync 0 sample).2 = []) :=
  ⟨by decide, moveToSync_noop sample 0 (by decide)⟩

end MotorControl

namespace MotorControl

lemma update_deactivates {s : MC} (now : Nat) (hA : s.motorActive = true)
    (hcond : (s.clockwise = true ∧ s.targetStep ≤ s.currentStep) ∨
      (s.clockwise = false ∧ s.currentStep ≤ s.targetStep)) :
    update now s = deactivateMotor s := by
  simp [update, hA, hcond]

lemma update_steps {s : MC} (now : Nat) (hA : s.motorActive = true)
    (hcond : ¬ ((s.clockwise = true ∧ s.targetStep ≤ s.currentStep) ∨
      (s.clockwise = false ∧ s.currentStep ≤ s.targetStep)))
    (h1 : s.lastStepTime + stepDelay ≤ now) (h2 : now < UINT32) :
    update now s = ({ (stepMotor s).1 with lastStepTime := now }, (stepMotor s).2) := by
  have he : elapsedMs now s.lastStepTime = now - s.lastStepTime :=
    elapsedMs_eq_sub (by omega) h2
  simp only [update, hA, if_true, if_neg hcond, he]
  rw [if_pos (by unfold stepDelay at *; omega)]

lemma runUpdates_cw : ∀ (ts : List Nat) (s : MC),
    s.motorActive = true → s.clockwise = true →
    s.currentStep ≤ s.targetStep →
    (s.targetStep - s.currentStep).natAbs + 1 ≤ ts.length →
    pacedFrom s.lastStepTime ts →
    s.lastStepTime < UINT32 →
    (runUpdates s ts).1.currentStep = s.targetStep ∧
      (runUpdates s ts).1.motorActive = false := by
  intro ts
  induction ts with
  | nil =>
    intro s _ _ _ hlen _ _
    simp at hlen
  | cons now rest ih =>
    intro s hA hC hle hlen hp hlt
    obtain ⟨hp1, hp2, hp3⟩ := hp
    by_cases heq : s.currentStep = s.targetStep
    · have hup : update now s = deactivateMotor s :=
        update_deactivates now hA (Or.inl ⟨hC, by omega⟩)
      simp only [runUpdates, hup]
      rw [runUpdates_inactive (by simp [deactivateMotor]) rest]
      simp [deactivateMotor, heq]
    · have hlt2 : s.currentStep < s.targetStep := lt_of_le_of_ne hle heq
      have hcond : ¬ ((s.clockwise = true ∧ s.targetStep ≤ s.currentStep) ∨
          (s.clockwise = false ∧ s.currentStep ≤ s.targetStep)) := by
        simp [hC]; omega
      have hup : update now s =
          ({ (stepMotor s).1 with lastStepTime := now }, (stepMotor s).2) :=
        update_steps now hA hcond (by omega) hp2
      have hs1 : ({ (stepMotor s).1 with lastStepTime := now } : MC) =
          { s with currentStep := s.currentStep + 1, lastStepTime := now } := by
        simp [stepMotor, hC]
      have hrec := ih { s with currentStep := s.currentStep + 1, lastStepTime := now }
        (show s.motorActive = true from hA)
        (show s.clockwise = true from hC)
        (show s.currentStep + 1 ≤ s.targetStep from by omega)
        (by simp only [List.length_cons] at hlen; simp; omega)
        hp3 hp2
      simp only [runUpdates, hup, hs1]
      exact hrec

lemma runUpdates_ccw : ∀ (ts : List Nat) (s : MC),
    s.motorActive = true → s.clockwise = false →
    s.targetStep ≤ s.currentStep →
    (s.currentStep - s.targetStep).natAbs + 1 ≤ ts.length →
    pacedFrom s.lastStepTime ts →
    s.lastStepTime < UINT32 →
    (runUpdates s ts).1.currentStep = s.targetStep ∧
      (runUpdates s ts).1.motorActive = false := by
  intro ts
  induction ts with
  | nil =>
    intro s _ _ _ hlen _ _
    simp at hlen
  | cons now rest ih =>
    intro s hA hC hle hlen hp hlt
    obtain ⟨hp1, hp2, hp3⟩ := hp
    by_cases heq : s.currentStep = s.targetStep
    · have hup : update now s = deactivateMotor s :=
        update_deactivates now hA (Or.inr ⟨hC, by omega⟩)
      simp only [runUpdates, hup]
      rw [runUpdates_inactive (by simp [deactivateMotor]) rest]
      simp [deactivateMotor, heq]
    · have hlt2 : s.targetStep < s.currentStep := lt_of_le_of_ne hle (Ne.symm heq)
      have hcond : ¬ ((s.clockwise = true ∧ s.targetStep ≤ s.currentStep) ∨
          (s.clockwise = false ∧ s.currentStep ≤ s.targetStep)) := by
        simp [hC]; omega
      have hup : update now s =
          ({ (stepMotor s).1 with lastStepTime := now }, (stepMotor s).2) :=
        update_steps now hA hcond (by omega) hp2
      have hs1 : ({ (stepMotor s).1 with lastStepTime := now } : MC) =
          { s with currentStep := s.currentStep - 1, lastStepTime := now } := by
        simp [stepMotor, hC]; omega
      have hrec := ih { s with currentStep := s.currentStep - 1, lastStepTime := now }
        (show s.motorActive = true from hA)
        (show s.clockwise = false from hC)
        (show s.targetStep ≤ s.currentStep - 1 from by omega)
        (by simp only [List.length_cons] at hlen; simp; omega)
        hp3 hp2
      simp only [runUpdates, hup, hs1]
      exact hrec

lemma moveTo_eq (t : Int) (s : MC) :
    moveTo t s =
      if s.currentStep = constrain t s.minStep s.maxStep then
        ({ s with targetStep := constrain t s.minStep s.maxStep }, [])
      else
        ({ s with targetStep := constrain t s.minStep s.maxStep,
                  clockwise := decide (constrain t s.minStep s.maxStep > s.currentStep),
                  motorActive := true, lastPosition := s.currentStep },
         activateEvents) := by
  simp only [moveTo, activateMotor]
  by_cases h : s.currentStep = constrain t s.minStep s.maxStep
  · rw [if_neg (by simpa using h), if_pos h]
  · rw [if_pos (by simpa using h), if_neg h]

/-- Claim C3: `moveTo t` followed by enough paced `update` calls — at
least `|clamped target - currentStep| + 1` of them, each clock reading in
`millis()` range and at least `stepDelay` past the previous one — drives
`currentStep` to exactly `constrain t minStep maxStep` and deactivates
(`motorActive` becomes false); any later `update` call leaves the state
unchanged and performs no pin operation at all. -/
theorem moveTo_update_drives (s : MC) (t : Int) (ts : List Nat)
    (hlen : (constrain t s.minStep s.maxStep - s.currentStep).natAbs + 1 ≤ ts.length)
    (hp : pacedFrom s.lastStepTime ts)
    (hlt : s.lastStepTime < UINT32) :
    (runUpdates (moveTo t s).1 ts).1.currentStep = constrain t s.minStep s.maxStep ∧
      (runUpdates (moveTo t s).1 ts).1.motorActive = false ∧
      ∀ now : Nat,
        update now (runUpdates (moveTo t s).1 ts).1 = ((runUpdates (moveTo t s).1 ts).1, []) := by
  rw [moveTo_eq]
  by_cases heq : s.currentStep = constrain t s.minStep s.maxStep
  · rw [if_pos heq]
    by_cases hA : s.motorActive = true
    · obtain ⟨now, rest, rfl⟩ : ∃ now rest, ts = now :: rest := by
        cases ts with
        | nil => simp at hlen
        | cons a b => exact ⟨a, b, rfl⟩
      have hcond : (({ s with targetStep := constrain t s.minStep s.maxStep } : MC).clockwise = true ∧
            ({ s with targetStep := constrain t s.minStep s.maxStep } : MC).targetStep ≤ ({ s with targetStep := constrain t s.minStep s.maxStep } : MC).currentStep) ∨
          (({ s with targetStep := constrain t s.minStep s.maxStep } : MC).clockwise = false ∧
            ({ s with targetStep := constrain t s.minStep s.maxStep } : MC).currentStep ≤ ({ s with targetStep := constrain t s.minStep s.maxStep } : MC).targetStep) := by
        cases hcw : s.clockwise
        · exact Or.inr ⟨by simp [hcw], by simp; omega⟩
        · exact Or.inl ⟨by simp [hcw], by simp; omega⟩
      have hup := update_deactivates now (show ({ s with targetStep := constrain t s.minStep s.maxStep } : MC).motorActive = true from hA) hcond
      simp only [runUpdates, hup]
      rw [runUpdates_inactive (by simp [deactivateMotor]) rest]
      refine ⟨by simp [deactivateMotor]; omega, by simp [deactivateMotor], ?_⟩
      intro now2
      exact update_inactive (by simp [deactivateMotor]) now2
    · have hA2 : s.motorActive = false := by
        cases h : s.motorActive
        · rfl
        · exact absurd h hA
      rw [runUpdates_inactive (show ({ s with targetStep := constrain t s.minStep s.maxStep } : MC).motorActive = false from hA2) ts]
      refine ⟨by simp; omega, hA2, ?_⟩
      intro now2
      exact update_inactive
        (show ({ s with targetStep := constrain t s.minStep s.maxStep } : MC).motorActive = false from hA2) now2
  · rw [if_neg heq]
    by_cases hdir : constrain t s.minStep s.maxStep > s.currentStep
    · rw [decide_eq_true hdir]
      have hrun := runUpdates_cw ts
        { s with targetStep := constrain t s.minStep s.maxStep,
                 clockwise := true, motorActive := true, lastPosition := s.currentStep }
        rfl rfl (by simp; omega) (by simp; omega) hp hlt
      refine ⟨hrun.1, hrun.2, ?_⟩
      intro now2
      exact update_inactive hrun.2 now2
    · rw [decide_eq_false hdir]
      have hrun := runUpdates_ccw ts
        { s with targetStep := constrain t s.minStep s.maxStep,
                 clockwise := false, motorActive := true, lastPosition := s.currentStep }
        rfl rfl (by simp; omega) (by simp; omega) hp hlt
      refine ⟨hrun.1, hrun.2, ?_⟩
      intro now2
      exact update_inactive hrun.2 now2

/-- Witness for claim C3: sample state, target 2, clock readings 2, 4, 6. -/
theorem moveTo_update_drives_witness :
    (constrain 2 sample.minStep sample.maxStep - sample.currentStep).natAbs + 1 ≤ [2, 4, 6].length ∧
      pacedFrom sample.lastStepTime [2, 4, 6] ∧
      sample.lastStepTime < UINT32 ∧
      ((runUpdates (moveTo 2 sample).1 [2, 4, 6]).1.currentStep = constrain 2 sample.minStep sample.maxStep ∧
        (runUpdates (moveTo 2 sample).1 [2, 4, 6]).1.motorActive = false ∧
        ∀ now : Nat,
          update now (runUpdates (moveTo 2 sample).1 [2, 4, 6]).1 =
            ((runUpdates (moveTo 2 sample).1 [2, 4, 6]).1, [])) :=
  ⟨by decide, by decide, by decide,
    moveTo_update_drives sample 2 [2, 4, 6] (by decide) (by decide) (by decide)⟩

end MotorControl
